import Mathlib

/-!
Verification of the order lifecycle and fulfillment engine specified for
`saleor/graphql/order/schema.py`.

The file under `src/` is the GraphQL wiring layer: it binds query and
mutation names (`order_capture`, `order_refund`, `order_void`,
`order_mark_as_paid`, `order_cancel`, `order_bulk_cancel`,
`order_fulfillment_create`, `order_fulfillment_cancel`, ...) to resolver
classes that are imported from sibling modules not present in the source
slice.  The engine behind those mutations is therefore modelled here from
the specification (sections 3, 4 and 7 of `spec.md`); every such
definition carries a `Modelled from the spec:` doc comment.  The
permission wiring of `OrderQueries` (claim C10) is present in the source
and is translated from it directly.

External capabilities (payment gateway, carrier lookup, clock, actor
resolver) are collaborators outside the engine; they are abstracted as
always succeeding, and timestamps/actor references are omitted from the
embedded records.  Amounts are fixed-point minor units, embedded as `Nat`.
-/

namespace OrderEngine

/-- Modelled from the spec: the order status enum of §4.1 (the state
machine states `DRAFT, UNFULFILLED, PARTIALLY_FULFILLED, FULFILLED,
CANCELED`); the mutation implementations holding it are missing from the
source slice. -/
inductive OrderStatus where
  | Draft
  | Unfulfilled
  | PartiallyFulfilled
  | Fulfilled
  | Canceled
deriving DecidableEq, Repr

/-- Modelled from the spec: ledger entry kinds of §3
(`CAPTURE|REFUND|VOID|MANUAL_MARK_PAID`). -/
inductive EntryKind where
  | CAPTURE
  | REFUND
  | VOID
  | MANUAL_MARK_PAID
deriving DecidableEq, Repr

/-- Modelled from the spec: a `LedgerEntry` (§3) — sequence number,
kind and amount.  Timestamp and actor reference are audit-only data
supplied by external capabilities and are omitted. -/
structure LedgerEntry where
  seq : Nat
  kind : EntryKind
  amount : Nat
deriving DecidableEq, Repr

/-- Modelled from the spec: an `OrderLine` (§3) — product reference,
quantity ordered, quantity fulfilled, unit price. -/
structure OrderLine where
  id : Nat
  productId : Nat
  quantityOrdered : Nat
  quantityFulfilled : Nat
  unitPrice : Nat
deriving DecidableEq, Repr

/-- Modelled from the spec: fulfillment status (§3, `CREATED|CANCELED`). -/
inductive FulfillmentStatus where
  | CREATED
  | CANCELED
deriving DecidableEq, Repr

/-- Modelled from the spec: a `Fulfillment` (§3) — list of
(line id, quantity) pairs, optional tracking number, status. -/
structure Fulfillment where
  id : Nat
  pairs : List (Nat × Nat)
  tracking : Option Nat
  status : FulfillmentStatus
deriving DecidableEq, Repr

/-- Modelled from the spec: the closed set of order event types (§3). -/
inductive OrderEventType where
  | PLACED
  | NOTE_ADDED
  | CAPTURED
  | REFUNDED
  | VOIDED
  | FULFILLED
  | CANCELED
  | MARKED_PAID
deriving DecidableEq, Repr

/-- Modelled from the spec: an `OrderEvent` (§3) — sequence number,
event type, kind-specific payload (embedded as a numeric code). -/
structure OrderEvent where
  seq : Nat
  eventType : OrderEventType
  payload : Nat
deriving DecidableEq, Repr

/-- Modelled from the spec: the `Order` aggregate (§3): identity, token,
status, total (money, minor units), currency, lines, and the owned
append-only ledger, fulfillments and event log; the marked-as-paid flag
of §4.2. -/
structure Order where
  id : Nat
  token : Nat
  status : OrderStatus
  total : Nat
  currency : Nat
  lines : List OrderLine
  ledger : List LedgerEntry
  fulfillments : List Fulfillment
  events : List OrderEvent
  markedPaid : Bool
deriving DecidableEq, Repr

/-- Modelled from the spec: the operation tags the engine records inside
`IllegalTransitionError` (§4.1 `IllegalTransitionError{from, to, operation}`),
one per operation of the §4.4 surface. -/
inductive OpTag where
  | capture
  | refund
  | void
  | markAsPaid
  | cancel
  | completeDraft
  | addNote
  | createFulfillment
  | cancelFulfillment
  | updateTracking
deriving DecidableEq, Repr

/-- Modelled from the spec: the structured error taxonomy of §4 and §7. -/
inductive EngineError where
  | OvercaptureError
  | OverrefundError
  | AlreadyCapturedError
  | AlreadyFulfilledError
  | OverfulfillmentError (offending : List Nat)
  | FulfillmentAlreadyCanceledError
  | IllegalTransitionError (fromState toState : OrderStatus) (operation : OpTag)
  | InvalidDraftError
  | NotFoundError
deriving DecidableEq, Repr

/-- Sum of the amounts of ledger entries of one kind. -/
def sumKind (ledger : List LedgerEntry) (k : EntryKind) : Nat :=
  (ledger.map (fun e => if e.kind = k then e.amount else 0)).sum

/-- Modelled from the spec: `captured_so_far` — the Ledger is the source
of truth for amounts captured (§3): sum of CAPTURE entry amounts. -/
def capturedSoFar (o : Order) : Nat := sumKind o.ledger .CAPTURE

/-- Modelled from the spec: `refunded_so_far` — sum of REFUND entry
amounts. -/
def refundedSoFar (o : Order) : Nat := sumKind o.ledger .REFUND

/-- Append a ledger entry together with its order event (§4.4: every
successful operation appends exactly one OrderEvent). -/
def appendEntry (o : Order) (k : EntryKind) (amount : Nat)
    (et : OrderEventType) : Order :=
  { o with
    ledger := o.ledger ++ [⟨o.ledger.length, k, amount⟩],
    events := o.events ++ [⟨o.events.length, et, 0⟩] }

/-- Modelled from the spec: `capture(order, amount)` (§4.2) — requires
`amount > 0` and `captured_so_far + amount ≤ order.total`; appends a
CAPTURE entry; fails with `OvercaptureError` otherwise.  The payment
gateway capability is abstracted as succeeding; §4.1 makes capture a
self-transition (no status precondition). -/
def capture (o : Order) (amount : Nat) : Except EngineError Order :=
  if 0 < amount ∧ capturedSoFar o + amount ≤ o.total then
    .ok (appendEntry o .CAPTURE amount .CAPTURED)
  else
    .error .OvercaptureError

/-- Modelled from the spec: `refund(order, amount)` (§4.2) — requires
`amount > 0` and `amount ≤ captured_so_far − refunded_so_far`; appends a
REFUND entry; fails with `OverrefundError` otherwise. -/
def refund (o : Order) (amount : Nat) : Except EngineError Order :=
  if 0 < amount ∧ amount + refundedSoFar o ≤ capturedSoFar o then
    .ok (appendEntry o .REFUND amount .REFUNDED)
  else
    .error .OverrefundError

/-- Modelled from the spec: `void(order)` (§4.2) — only legal if
`captured_so_far == 0`; appends a VOID entry; fails with
`AlreadyCapturedError` otherwise. -/
def void (o : Order) : Except EngineError Order :=
  if capturedSoFar o = 0 then
    .ok (appendEntry o .VOID 0 .VOIDED)
  else
    .error .AlreadyCapturedError

/-- Modelled from the spec: `mark_as_paid(order)` (§4.2) — requires
`captured_so_far == 0`; appends a MANUAL_MARK_PAID entry and flags the
order; fails with `AlreadyCapturedError` otherwise.  (The flag prevents
*automated* capture, which is not an engine operation; the manual
`capture` operation above checks exactly the §4.2 preconditions.) -/
def markAsPaid (o : Order) : Except EngineError Order :=
  if capturedSoFar o = 0 then
    .ok { appendEntry o .MANUAL_MARK_PAID 0 .MARKED_PAID with markedPaid := true }
  else
    .error .AlreadyCapturedError

/-- The committed result of a successful `cancel`: status CANCELED plus
the appended CANCELED event. -/
def cancelCommit (o : Order) : Order :=
  { o with status := .Canceled,
           events := o.events ++ [⟨o.events.length, .CANCELED, 0⟩] }

/-- Modelled from the spec: `cancel` (§4.1) —
`{DRAFT, UNFULFILLED, PARTIALLY_FULFILLED} → CANCELED`; fails with
`AlreadyFulfilledError` if the status is `FULFILLED`; canceling a
CANCELED (terminal) order is an illegal transition. -/
def cancel (o : Order) : Except EngineError Order :=
  match o.status with
  | .Fulfilled => .error .AlreadyFulfilledError
  | .Canceled => .error (.IllegalTransitionError .Canceled .Canceled .cancel)
  | _ => .ok (cancelCommit o)

/-- Modelled from the spec: `complete_draft` (§4.1) —
`DRAFT → UNFULFILLED`, requires at least one line (the shipping/billing
address check is an external collaborator, abstracted as succeeding);
fails with `InvalidDraftError` on an empty draft, and with
`IllegalTransitionError` when the order is not a draft. -/
def completeDraft (o : Order) : Except EngineError Order :=
  match o.status with
  | .Draft =>
      if o.lines.isEmpty then .error .InvalidDraftError
      else .ok { o with status := .Unfulfilled,
                        events := o.events ++ [⟨o.events.length, .PLACED, 0⟩] }
  | s => .error (.IllegalTransitionError s .Unfulfilled .completeDraft)

/-- Modelled from the spec: `addNote` (§4.1, §4.4) — a self-transition
appending a NOTE_ADDED event. -/
def addNote (o : Order) (note : Nat) : Except EngineError Order :=
  .ok { o with events := o.events ++ [⟨o.events.length, .NOTE_ADDED, note⟩] }

/-- Find a line of the order by its id. -/
def findLine (lines : List OrderLine) (lid : Nat) : Option OrderLine :=
  lines.find? (fun l => l.id = lid)

/-- Total quantity requested for one line id across the (line id,
quantity) pairs of a fulfillment request. -/
def totalRequested (pairs : List (Nat × Nat)) (lid : Nat) : Nat :=
  (pairs.map (fun p => if p.1 = lid then p.2 else 0)).sum

/-- Modelled from the spec: a request pair is offending (§4.3) when its
quantity is not positive or the line cannot absorb the quantity the
request assigns to it on top of what is already fulfilled. -/
def pairOffending (lines : List OrderLine) (pairs : List (Nat × Nat))
    (p : Nat × Nat) : Bool :=
  decide (p.2 = 0) ||
    match findLine lines p.1 with
    | none => true
    | some l => decide (l.quantityOrdered < l.quantityFulfilled + totalRequested pairs p.1)

/-- Line ids of the offending pairs of a fulfillment request. -/
def offendingLines (lines : List OrderLine) (pairs : List (Nat × Nat)) : List Nat :=
  (pairs.filter (pairOffending lines pairs)).map (fun p => p.1)

/-- Commit a validated fulfillment request: bump every line's fulfilled
quantity by the total the request assigns to it. -/
def commitPairs (lines : List OrderLine) (pairs : List (Nat × Nat)) :
    List OrderLine :=
  lines.map (fun l =>
    { l with quantityFulfilled := l.quantityFulfilled + totalRequested pairs l.id })

/-- Restore lines on fulfillment cancellation: decrement every line's
fulfilled quantity by the total the canceled fulfillment assigned to it. -/
def restorePairs (lines : List OrderLine) (pairs : List (Nat × Nat)) :
    List OrderLine :=
  lines.map (fun l =>
    { l with quantityFulfilled := l.quantityFulfilled - totalRequested pairs l.id })

/-- Modelled from the spec: status reevaluation (§4.1, §4.3) — FULFILLED
when cumulative fulfilled quantity equals ordered quantity for every
line, UNFULFILLED when nothing is fulfilled, PARTIALLY_FULFILLED
otherwise. -/
def fulfillmentStatus (lines : List OrderLine) : OrderStatus :=
  if lines.all (fun l => l.quantityFulfilled = l.quantityOrdered) then .Fulfilled
  else if lines.all (fun l => l.quantityFulfilled = 0) then .Unfulfilled
  else .PartiallyFulfilled

/-- Modelled from the spec: `create_fulfillment(order, line_quantities,
tracking_number?)` (§4.3) — legal only while the order is being
fulfilled (UNFULFILLED or PARTIALLY_FULFILLED); every referenced line
must exist; all pairs are validated before any line is changed
(all-or-nothing), failing with `OverfulfillmentError` listing the
offending line ids; on success a CREATED Fulfillment is appended, every
line's fulfilled quantity is bumped and the status reevaluated. -/
def createFulfillment (o : Order) (pairs : List (Nat × Nat))
    (tracking : Option Nat) : Except EngineError Order :=
  match o.status with
  | .Unfulfilled | .PartiallyFulfilled =>
      if pairs.all (fun p => (findLine o.lines p.1).isSome) then
        match offendingLines o.lines pairs with
        | [] =>
            let newLines := commitPairs o.lines pairs
            .ok { o with
              lines := newLines,
              status := fulfillmentStatus newLines,
              fulfillments := o.fulfillments ++
                [⟨o.fulfillments.length, pairs, tracking, .CREATED⟩],
              events := o.events ++ [⟨o.events.length, .FULFILLED, 0⟩] }
        | bad => .error (.OverfulfillmentError bad)
      else .error .NotFoundError
  | s => .error (.IllegalTransitionError s .PartiallyFulfilled .createFulfillment)

/-- Set one fulfillment's status to CANCELED, by id. -/
def cancelFulfillmentById (fs : List Fulfillment) (fid : Nat) : List Fulfillment :=
  fs.map (fun f => if f.id = fid then { f with status := .CANCELED } else f)

/-- Modelled from the spec: `cancel_fulfillment(fulfillment)` (§4.3) —
fails with `FulfillmentAlreadyCanceledError` if already canceled;
otherwise decrements the lines' fulfilled quantities and reevaluates the
order status.  The carrier shipped-and-settled capability check is
abstracted as reporting not settled; canceling a fulfillment of a
DRAFT or CANCELED order is an illegal transition. -/
def cancelFulfillment (o : Order) (fid : Nat) : Except EngineError Order :=
  match o.status with
  | .Draft => .error (.IllegalTransitionError .Draft .PartiallyFulfilled .cancelFulfillment)
  | .Canceled => .error (.IllegalTransitionError .Canceled .PartiallyFulfilled .cancelFulfillment)
  | _ =>
      match o.fulfillments.find? (fun f => f.id = fid) with
      | none => .error .NotFoundError
      | some f =>
          if f.status = .CANCELED then .error .FulfillmentAlreadyCanceledError
          else
            let newLines := restorePairs o.lines f.pairs
            .ok { o with
              lines := newLines,
              status := fulfillmentStatus newLines,
              fulfillments := cancelFulfillmentById o.fulfillments fid,
              events := o.events ++ [⟨o.events.length, .CANCELED, 1⟩] }

/-- Modelled from the spec: `updateFulfillmentTracking` (§4.4) — sets
the tracking number of an existing fulfillment. -/
def updateFulfillmentTracking (o : Order) (fid : Nat) (tracking : Nat) :
    Except EngineError Order :=
  if o.fulfillments.any (fun f => f.id = fid) then
    .ok { o with fulfillments := o.fulfillments.map (fun f =>
            if f.id = fid then { f with tracking := some tracking } else f) }
  else .error .NotFoundError

/-- Modelled from the spec: the order-level operation surface of the
Order Engine (§4.4). -/
inductive EngineOp where
  | capture (amount : Nat)
  | refund (amount : Nat)
  | void
  | markAsPaid
  | cancel
  | completeDraft
  | addNote (note : Nat)
  | createFulfillment (pairs : List (Nat × Nat)) (tracking : Option Nat)
  | cancelFulfillment (fid : Nat)
  | updateTracking (fid : Nat) (tracking : Nat)
deriving DecidableEq, Repr

/-- The operation tag recorded in `IllegalTransitionError`. -/
def opName : EngineOp → OpTag
  | .capture _ => .capture
  | .refund _ => .refund
  | .void => .void
  | .markAsPaid => .markAsPaid
  | .cancel => .cancel
  | .completeDraft => .completeDraft
  | .addNote _ => .addNote
  | .createFulfillment _ _ => .createFulfillment
  | .cancelFulfillment _ => .cancelFulfillment
  | .updateTracking _ _ => .updateTracking

/-- Modelled from the spec: the Order Engine dispatcher (§4.4) — applies
one operation to one order, returning the updated snapshot or a
structured error. -/
def applyOp : EngineOp → Order → Except EngineError Order
  | .capture amount, o => capture o amount
  | .refund amount, o => refund o amount
  | .void, o => void o
  | .markAsPaid, o => markAsPaid o
  | .cancel, o => cancel o
  | .completeDraft, o => completeDraft o
  | .addNote note, o => addNote o note
  | .createFulfillment pairs tracking, o => createFulfillment o pairs tracking
  | .cancelFulfillment fid, o => cancelFulfillment o fid
  | .updateTracking fid tracking, o => updateFulfillmentTracking o fid tracking

/-- Run one operation, keeping the pre-state when the operation fails:
per §7 every failure aborts the whole operation with no partial state
change, so the order after a failed call is the order before it. -/
def runOp (op : EngineOp) (o : Order) : Order × Option EngineError :=
  match applyOp op o with
  | .ok o2 => (o2, none)
  | .error e => (o, some e)

/-- Look up an order in a store by id. -/
def lookupOrder (st : List Order) (oid : Nat) : Option Order :=
  st.find? (fun x => x.id = oid)

/-- Replace the store's order carrying the given order's id. -/
def storeUpdate (st : List Order) (o : Order) : List Order :=
  st.map (fun x => if x.id = o.id then o else x)

/-- Modelled from the spec: the engine entry point at store level — an
operation names an order by id (§6); a failed operation commits nothing
(§7). -/
def applyOpStore (op : EngineOp) (st : List Order) (oid : Nat) :
    List Order × Option EngineError :=
  match lookupOrder st oid with
  | none => (st, some .NotFoundError)
  | some o =>
      match applyOp op o with
      | .ok o2 => (storeUpdate st o2, none)
      | .error e => (st, some e)

/-- Modelled from the spec: `bulkCancel(order_ids)` (§4.4) — processes
each order independently and reports per-order success (`none`) or
failure reason; one order's failure does not affect the others and the
whole call never fails. -/
def bulkCancel (st : List Order) : List Nat → List Order × List (Nat × Option EngineError)
  | [] => (st, [])
  | oid :: rest =>
      match lookupOrder st oid with
      | none =>
          let r := bulkCancel st rest
          (r.1, (oid, some .NotFoundError) :: r.2)
      | some o =>
          match cancel o with
          | .ok o2 =>
              let r := bulkCancel (storeUpdate st o2) rest
              (r.1, (oid, none) :: r.2)
          | .error e =>
              let r := bulkCancel st rest
              (r.1, (oid, some e) :: r.2)

/-- Modelled from the spec: an initial order (§3, §4.1) — created on
draft creation (DRAFT) or checkout completion (UNFULFILLED), with an
empty ledger, no fulfillments, nothing fulfilled yet, and distinct line
ids. -/
def InitOrder (o : Order) : Prop :=
  o.ledger = [] ∧ o.fulfillments = [] ∧
  (∀ l ∈ o.lines, l.quantityFulfilled = 0) ∧
  (o.lines.map OrderLine.id).Nodup ∧
  (o.status = .Draft ∨ o.status = .Unfulfilled)

instance (o : Order) : Decidable (InitOrder o) := by
  unfold InitOrder; infer_instance

/-- A reachable engine state of one order: an initial order, or the
result of a successful engine operation on a reachable order. -/
inductive Reachable : Order → Prop where
  | init (o : Order) : InitOrder o → Reachable o
  | step (o : Order) (op : EngineOp) (o2 : Order) :
      Reachable o → applyOp op o = .ok o2 → Reachable o2

/-- Modelled from the spec: the money invariant of §3 and §8 — total
refunded never exceeds total captured, and total captured never exceeds
the order total. -/
def MoneyInv (o : Order) : Prop :=
  refundedSoFar o ≤ capturedSoFar o ∧ capturedSoFar o ≤ o.total

/-- Sum of the quantities assigned to one line id across all
non-canceled (CREATED) fulfillments. -/
def sumCreated (fs : List Fulfillment) (lid : Nat) : Nat :=
  (fs.map (fun f => if f.status = .CREATED then totalRequested f.pairs lid else 0)).sum

/-- The fulfillment bookkeeping invariant: line ids are distinct,
fulfillment ids are distinct indices, and every line's fulfilled
quantity is within its ordered quantity and coheres with the sum over
the non-canceled fulfillments. -/
def LineInv (o : Order) : Prop :=
  (o.lines.map OrderLine.id).Nodup ∧
  (o.fulfillments.map Fulfillment.id).Nodup ∧
  (∀ f ∈ o.fulfillments, f.id < o.fulfillments.length) ∧
  (∀ l ∈ o.lines, l.quantityFulfilled ≤ l.quantityOrdered ∧
     l.quantityFulfilled = sumCreated o.fulfillments l.id)

/-- The request fulfilling every line's full remaining quantity. -/
def remainingPairs (lines : List OrderLine) : List (Nat × Nat) :=
  (lines.filter (fun l => l.quantityFulfilled < l.quantityOrdered)).map
    (fun l => (l.id, l.quantityOrdered - l.quantityFulfilled))

/-- The behavior §4.2 and §8 claim of `capture`: success exactly under
the preconditions, a single appended CAPTURE entry on success, and
`OvercaptureError` with an untouched ledger on overcapture. -/
def CaptureClaim (o : Order) (amount : Nat) : Prop :=
  ((capture o amount).isOk ↔ 0 < amount ∧ capturedSoFar o + amount ≤ o.total) ∧
  (∀ o2, capture o amount = .ok o2 →
     o2.ledger = o.ledger ++ [⟨o.ledger.length, .CAPTURE, amount⟩]) ∧
  (o.total < capturedSoFar o + amount →
     capture o amount = .error .OvercaptureError ∧
     (runOp (.capture amount) o).1.ledger.length = o.ledger.length ∧
     (runOp (.capture amount) o).1 = o)

/-- The behavior §4.1 and §8 claim of `cancel`: cancelable statuses
reach CANCELED, a FULFILLED order fails with `AlreadyFulfilledError`
with its status unchanged. -/
def CancelClaim (o : Order) : Prop :=
  ((o.status = .Draft ∨ o.status = .Unfulfilled ∨ o.status = .PartiallyFulfilled) →
     ∃ o2, cancel o = .ok o2 ∧ o2.status = .Canceled) ∧
  (o.status = .Fulfilled →
     cancel o = .error .AlreadyFulfilledError ∧
     (runOp .cancel o).1.status = o.status ∧ (runOp .cancel o).1 = o)

/-- The behavior §4.2 claims of `void`, `mark_as_paid` and `refund`:
each succeeds exactly under its precondition, appends its single ledger
entry on success, and fails with its designated error otherwise. -/
def LedgerGuardClaim (o : Order) (amount : Nat) : Prop :=
  ((void o).isOk ↔ capturedSoFar o = 0) ∧
  (∀ o2, void o = .ok o2 →
     o2.ledger = o.ledger ++ [⟨o.ledger.length, .VOID, 0⟩]) ∧
  (capturedSoFar o ≠ 0 → void o = .error .AlreadyCapturedError) ∧
  ((markAsPaid o).isOk ↔ capturedSoFar o = 0) ∧
  (∀ o2, markAsPaid o = .ok o2 →
     o2.ledger = o.ledger ++ [⟨o.ledger.length, .MANUAL_MARK_PAID, 0⟩]) ∧
  (capturedSoFar o ≠ 0 → markAsPaid o = .error .AlreadyCapturedError) ∧
  ((refund o amount).isOk ↔
     0 < amount ∧ amount ≤ capturedSoFar o - refundedSoFar o) ∧
  (∀ o2, refund o amount = .ok o2 →
     o2.ledger = o.ledger ++ [⟨o.ledger.length, .REFUND, amount⟩]) ∧
  (¬(0 < amount ∧ amount ≤ capturedSoFar o - refundedSoFar o) →
     refund o amount = .error .OverrefundError)

/-- The behavior §4.3 and §8 claim of `create_fulfillment`: a request
with a pair violating the per-line precondition fails with
`OverfulfillmentError` and changes no line (all-or-nothing); a
successful request bumps every listed line by its quantity. -/
def FulfillmentAtomicClaim (o : Order) (pairs : List (Nat × Nat))
    (tracking : Option Nat) : Prop :=
  ((∃ p ∈ pairs, p.2 = 0 ∨ ∃ l, findLine o.lines p.1 = some l ∧
        l.quantityOrdered < l.quantityFulfilled + p.2) →
     (∃ bad, createFulfillment o pairs tracking = .error (.OverfulfillmentError bad)) ∧
     (runOp (.createFulfillment pairs tracking) o).1.lines = o.lines) ∧
  (∀ o2, createFulfillment o pairs tracking = .ok o2 →
     ∀ p ∈ pairs, ∀ l, findLine o.lines p.1 = some l →
       findLine o2.lines p.1 =
         some { l with quantityFulfilled := l.quantityFulfilled + p.2 })

/-- The behavior §4.4 and §8 claim of `bulkCancel` on `[A, B, C]` with B
fulfilled: A and C end CANCELED, B's entry reports
`AlreadyFulfilledError`, and B is left unchanged in the store. -/
def BulkCancelTriple (A B C : Order) : Prop :=
  ∃ A2 C2,
    bulkCancel [A, B, C] [A.id, B.id, C.id] =
      ([A2, B, C2], [(A.id, none), (B.id, some .AlreadyFulfilledError), (C.id, none)]) ∧
    A2.status = .Canceled ∧ C2.status = .Canceled ∧ A2.id = A.id ∧ C2.id = C.id

/-- The round trip §8 claims: fulfilling the full remaining quantity of
every line reaches FULFILLED; canceling that same fulfillment restores
the lines and leaves the status PARTIALLY_FULFILLED when some other
fulfilled quantity remains and UNFULFILLED when none does. -/
def RoundTripClaim (o : Order) : Prop :=
  ∃ o1 o2,
    createFulfillment o (remainingPairs o.lines) none = .ok o1 ∧
    o1.status = .Fulfilled ∧
    cancelFulfillment o1 o.fulfillments.length = .ok o2 ∧
    o2.status = (if o.lines.all (fun l => l.quantityFulfilled = 0) then
                   OrderStatus.Unfulfilled else .PartiallyFulfilled) ∧
    o2.lines = o.lines

/-- A sample line: 5 ordered, none fulfilled. -/
def lineA : OrderLine :=
  { id := 1, productId := 100, quantityOrdered := 5, quantityFulfilled := 0,
    unitPrice := 10 }

/-- A sample line: 3 ordered, 2 fulfilled. -/
def lineB : OrderLine :=
  { id := 2, productId := 101, quantityOrdered := 3, quantityFulfilled := 2,
    unitPrice := 20 }

/-- A sample unfulfilled order with an empty ledger. -/
def baseOrder : Order :=
  { id := 1, token := 11, status := .Unfulfilled, total := 100, currency := 840,
    lines := [lineA, { lineB with quantityFulfilled := 0 }], ledger := [],
    fulfillments := [], events := [], markedPaid := false }

/-- A sample fully fulfilled order. -/
def fulfilledOrder : Order :=
  { baseOrder with
    id := 2, token := 12, status := .Fulfilled,
    lines := [{ lineA with quantityFulfilled := 5 },
              { lineB with quantityFulfilled := 3 }] }

/-- A sample draft order. -/
def draftOrder : Order :=
  { baseOrder with id := 3, token := 13, status := .Draft }

/-- A sample canceled order. -/
def canceledOrder : Order :=
  { baseOrder with id := 5, token := 15, status := .Canceled }

/-- A sample order holding one 40-unit capture. -/
def paidOrder : Order :=
  { baseOrder with
    id := 4, token := 14,
    ledger := [{ seq := 0, kind := .CAPTURE, amount := 40 }] }

/-- A sample partially fulfilled order: `lineB` has 2 of 3 fulfilled
through one CREATED fulfillment. -/
def partialOrder : Order :=
  { baseOrder with
    id := 6, token := 16, status := .PartiallyFulfilled,
    lines := [lineA, lineB],
    fulfillments := [{ id := 0, pairs := [(2, 2)], tracking := none,
                       status := .CREATED }] }

end OrderEngine

namespace OrderSchema

/-- The six query resolvers declared by `OrderQueries` in
`src/saleor/graphql/order/schema.py`. -/
inductive QueryResolver where
  | homepage_events
  | order
  | orders
  | draft_orders
  | orders_total
  | order_by_token
deriving DecidableEq, Repr

/-- Whether the resolver is wrapped by
`@permission_required(OrderPermissions.MANAGE_ORDERS)` in
`src/saleor/graphql/order/schema.py` (lines 132-157): every resolver of
`OrderQueries` carries the decorator except `resolve_order_by_token`. -/
def requiresManageOrders : QueryResolver → Bool
  | .homepage_events => true
  | .order => true
  | .orders => true
  | .draft_orders => true
  | .orders_total => true
  | .order_by_token => false

end OrderSchema

namespace OrderEngine

theorem sumKind_append (l : List LedgerEntry) (e : LedgerEntry) (k : EntryKind) :
    sumKind (l ++ [e]) k = sumKind l k + (if e.kind = k then e.amount else 0) := by
  simp [sumKind]

theorem capturedSoFar_appendEntry (o : Order) (k : EntryKind) (a : Nat)
    (et : OrderEventType) :
    capturedSoFar (appendEntry o k a et) =
      capturedSoFar o + (if k = .CAPTURE then a else 0) := by
  simp [capturedSoFar, appendEntry, sumKind_append]

theorem refundedSoFar_appendEntry (o : Order) (k : EntryKind) (a : Nat)
    (et : OrderEventType) :
    refundedSoFar (appendEntry o k a et) =
      refundedSoFar o + (if k = .REFUND then a else 0) := by
  simp [refundedSoFar, appendEntry, sumKind_append]

/-- C2: for every order and every amount, `capture` succeeds (appending
exactly one CAPTURE entry) iff `amount > 0` and
`captured_so_far + amount ≤ order.total`; on overcapture it fails with
`OvercaptureError` and leaves the ledger (entry count and whole state)
unchanged. -/
theorem capture_spec_holds (o : Order) (amount : Nat) : CaptureClaim o amount := by
  unfold CaptureClaim
  by_cases h : 0 < amount ∧ capturedSoFar o + amount ≤ o.total
  · refine ⟨by simp [capture, h, Except.isOk, Except.toBool], ?_, ?_⟩
    · intro o2 h2
      unfold capture at h2
      rw [if_pos h] at h2
      simp only [Except.ok.injEq] at h2
      subst h2
      simp [appendEntry]
    · intro hover
      exfalso
      omega
  · refine ⟨by simp [capture, h, Except.isOk, Except.toBool], ?_, ?_⟩
    · intro o2 h2
      unfold capture at h2
      rw [if_neg h] at h2
      exact absurd h2 (by simp)
    · intro hover
      refine ⟨by simp [capture, h], ?_, ?_⟩ <;>
        simp [runOp, applyOp, capture, h]

theorem capture_spec_witness : CaptureClaim baseOrder 150 :=
  capture_spec_holds baseOrder 150

/-- C3: every order in a status among DRAFT, UNFULFILLED,
PARTIALLY_FULFILLED is moved to CANCELED by `cancel`; a FULFILLED order
makes `cancel` fail with `AlreadyFulfilledError` and keeps its status. -/
theorem cancel_spec_holds (o : Order) : CancelClaim o := by
  unfold CancelClaim
  constructor
  · rintro (h | h | h) <;> exact ⟨cancelCommit o, by simp [cancel, h], rfl⟩
  · intro h
    refine ⟨by simp [cancel, h], ?_, ?_⟩ <;> simp [runOp, applyOp, cancel, h]

theorem cancel_spec_witness :
    CancelClaim baseOrder ∧ CancelClaim fulfilledOrder :=
  ⟨cancel_spec_holds baseOrder, cancel_spec_holds fulfilledOrder⟩

/-- C8: `void` and `mark_as_paid` succeed (appending a VOID resp.
MANUAL_MARK_PAID entry) iff nothing is captured yet, failing with
`AlreadyCapturedError` otherwise; `refund` succeeds iff the amount is
positive and within `captured_so_far − refunded_so_far`, failing with
`OverrefundError` otherwise. -/
theorem ledger_guards_spec (o : Order) (amount : Nat) : LedgerGuardClaim o amount := by
  unfold LedgerGuardClaim
  refine ⟨?_, ?_, ?_, ?_, ?_, ?_, ?_, ?_, ?_⟩
  · by_cases hc : capturedSoFar o = 0 <;>
      simp [void, hc, Except.isOk, Except.toBool]
  · intro o2 h2
    unfold void at h2
    by_cases hc : capturedSoFar o = 0
    · rw [if_pos hc] at h2
      simp only [Except.ok.injEq] at h2
      subst h2
      simp [appendEntry]
    · rw [if_neg hc] at h2
      exact absurd h2 (by simp)
  · intro hc
    simp [void, hc]
  · by_cases hc : capturedSoFar o = 0 <;>
      simp [markAsPaid, hc, Except.isOk, Except.toBool]
  · intro o2 h2
    unfold markAsPaid at h2
    by_cases hc : capturedSoFar o = 0
    · rw [if_pos hc] at h2
      simp only [Except.ok.injEq] at h2
      subst h2
      simp [appendEntry]
    · rw [if_neg hc] at h2
      exact absurd h2 (by simp)
  · intro hc
    simp [markAsPaid, hc]
  · by_cases hr : 0 < amount ∧ amount + refundedSoFar o ≤ capturedSoFar o <;>
      simp [refund, hr, Except.isOk, Except.toBool] <;> omega
  · intro o2 h2
    unfold refund at h2
    by_cases hr : 0 < amount ∧ amount + refundedSoFar o ≤ capturedSoFar o
    · rw [if_pos hr] at h2
      simp only [Except.ok.injEq] at h2
      subst h2
      simp [appendEntry]
    · rw [if_neg hr] at h2
      exact absurd h2 (by simp)
  · intro hx
    have hr : ¬(0 < amount ∧ amount + refundedSoFar o ≤ capturedSoFar o) := by omega
    simp [refund, hr]

theorem ledger_guards_witness : LedgerGuardClaim paidOrder 10 :=
  ledger_guards_spec paidOrder 10

theorem moneyInv_preserved (op : EngineOp) (o o2 : Order)
    (hInv : MoneyInv o) (h : applyOp op o = .ok o2) : MoneyInv o2 := by
  cases op with
  | capture amount =>
      simp only [applyOp] at h
      unfold capture at h
      by_cases hc : 0 < amount ∧ capturedSoFar o + amount ≤ o.total
      · rw [if_pos hc] at h
        simp only [Except.ok.injEq] at h
        subst h
        unfold MoneyInv at *
        rw [capturedSoFar_appendEntry, refundedSoFar_appendEntry]
        simp only [appendEntry]
        simp
        omega
      · rw [if_neg hc] at h
        exact absurd h (by simp)
  | refund amount =>
      simp only [applyOp] at h
      unfold refund at h
      by_cases hc : 0 < amount ∧ amount + refundedSoFar o ≤ capturedSoFar o
      · rw [if_pos hc] at h
        simp only [Except.ok.injEq] at h
        subst h
        unfold MoneyInv at *
        rw [capturedSoFar_appendEntry, refundedSoFar_appendEntry]
        simp only [appendEntry]
        simp
        omega
      · rw [if_neg hc] at h
        exact absurd h (by simp)
  | void =>
      simp only [applyOp] at h
      unfold void at h
      by_cases hc : capturedSoFar o = 0
      · rw [if_pos hc] at h
        simp only [Except.ok.injEq] at h
        subst h
        unfold MoneyInv at *
        rw [capturedSoFar_appendEntry, refundedSoFar_appendEntry]
        simp only [appendEntry]
        simp
        omega
      · rw [if_neg hc] at h
        exact absurd h (by simp)
  | markAsPaid =>
      simp only [applyOp] at h
      unfold markAsPaid at h
      by_cases hc : capturedSoFar o = 0
      · rw [if_pos hc] at h
        simp only [Except.ok.injEq] at h
        subst h
        unfold MoneyInv at *
        simpa [capturedSoFar, refundedSoFar, sumKind, appendEntry] using
          (by simpa [capturedSoFar, refundedSoFar, sumKind, appendEntry] using hInv :
            refundedSoFar o ≤ capturedSoFar o ∧ capturedSoFar o ≤ o.total)
      · rw [if_neg hc] at h
        exact absurd h (by simp)
  | cancel =>
      simp only [applyOp] at h
      unfold cancel at h
      repeat' split at h
      all_goals try exact Except.noConfusion h
      all_goals simp only [Except.ok.injEq] at h
      all_goals subst h
      all_goals exact hInv
  | completeDraft =>
      simp only [applyOp] at h
      unfold completeDraft at h
      repeat' split at h
      all_goals try exact Except.noConfusion h
      all_goals simp only [Except.ok.injEq] at h
      all_goals subst h
      all_goals exact hInv
  | addNote note =>
      simp only [applyOp] at h
      unfold addNote at h
      simp only [Except.ok.injEq] at h
      subst h
      exact hInv
  | createFulfillment pairs tracking =>
      simp only [applyOp] at h
      unfold createFulfillment at h
      repeat' split at h
      all_goals try exact Except.noConfusion h
      all_goals simp only [Except.ok.injEq] at h
      all_goals subst h
      all_goals exact hInv
  | cancelFulfillment fid =>
      simp only [applyOp] at h
      unfold cancelFulfillment at h
      repeat' split at h
      all_goals try exact Except.noConfusion h
      all_goals simp only [Except.ok.injEq] at h
      all_goals subst h
      all_goals exact hInv
  | updateTracking fid tracking =>
      simp only [applyOp] at h
      unfold updateFulfillmentTracking at h
      repeat' split at h
      all_goals try exact Except.noConfusion h
      all_goals simp only [Except.ok.injEq] at h
      all_goals subst h
      all_goals exact hInv

theorem moneyInv_init (o : Order) (h : InitOrder o) : MoneyInv o := by
  obtain ⟨hl, -, -, -, -⟩ := h
  unfold MoneyInv capturedSoFar refundedSoFar sumKind
  rw [hl]
  simp

/-- C1: in every reachable state of the engine the ledger totals satisfy
`sum(captures) − sum(refunds) ≥ 0` and `sum(captures) ≤ order.total`,
and every engine operation preserves this invariant. -/
theorem money_invariant_reachable :
    (∀ o, Reachable o →
       MoneyInv o ∧ 0 ≤ (capturedSoFar o : ℤ) - (refundedSoFar o : ℤ)) ∧
    (∀ op o o2, MoneyInv o → applyOp op o = .ok o2 → MoneyInv o2) := by
  constructor
  · intro o h
    induction h with
    | init o h0 =>
        have hm := moneyInv_init o h0
        refine ⟨hm, ?_⟩
        obtain ⟨h1, -⟩ := hm
        omega
    | step o op o2 _ hstep ih =>
        have hm := moneyInv_preserved op o o2 ih.1 hstep
        refine ⟨hm, ?_⟩
        obtain ⟨h1, -⟩ := hm
        omega
  · exact fun op o o2 h1 h2 => moneyInv_preserved op o o2 h1 h2

theorem money_invariant_witness :
    MoneyInv baseOrder ∧
      0 ≤ (capturedSoFar baseOrder : ℤ) - (refundedSoFar baseOrder : ℤ) :=
  money_invariant_reachable.1 baseOrder (Reachable.init baseOrder (by decide))

/-- C9: a failed store-level operation leaves the store exactly as it
was, and every `IllegalTransitionError` is detected purely from the
order's current status and carries that from-status and the operation. -/
theorem illegal_transition_safe :
    (∀ op st oid, ((applyOpStore op st oid).2).isSome →
       (applyOpStore op st oid).1 = st) ∧
    (∀ op o f t n, applyOp op o = .error (.IllegalTransitionError f t n) →
       f = o.status ∧ n = opName op) := by
  constructor
  · intro op st oid h
    rcases hl : lookupOrder st oid with - | o
    · simp [applyOpStore, hl]
    · rcases ha : applyOp op o with e | o2
      · simp [applyOpStore, hl, ha]
      · simp [applyOpStore, hl, ha] at h
  · intro op o f t n h
    cases op <;>
      simp only [applyOp, capture, refund, void, markAsPaid, cancel, completeDraft,
        addNote, createFulfillment, cancelFulfillment,
        updateFulfillmentTracking] at h <;>
      (repeat' split at h) <;> simp_all [opName]

theorem illegal_transition_witness :
    (applyOpStore .cancel [canceledOrder] 5).1 = [canceledOrder] ∧
    OrderStatus.Canceled = canceledOrder.status ∧ OpTag.cancel = opName .cancel :=
  ⟨illegal_transition_safe.1 .cancel [canceledOrder] 5 (by rfl),
   illegal_transition_safe.2 .cancel canceledOrder .Canceled .Canceled .cancel
     (by rfl)⟩

end OrderEngine

namespace OrderSchema

/-- C10: among the six query resolvers of `OrderQueries` in
`src/saleor/graphql/order/schema.py`, `resolve_order_by_token` is the
only one not guarded by the MANAGE_ORDERS permission decorator. -/
theorem order_by_token_only_unguarded (r : QueryResolver) :
    requiresManageOrders r = false ↔ r = QueryResolver.order_by_token := by
  cases r <;> simp [requiresManageOrders]

theorem order_by_token_unguarded_witness :
    requiresManageOrders QueryResolver.order_by_token = false :=
  (order_by_token_only_unguarded QueryResolver.order_by_token).mpr rfl

end OrderSchema

namespace OrderEngine

theorem totalRequested_cons (q : Nat × Nat) (ps : List (Nat × Nat)) (lid : Nat) :
    totalRequested (q :: ps) lid =
      (if q.1 = lid then q.2 else 0) + totalRequested ps lid := by
  simp [totalRequested]

theorem le_totalRequested (ps : List (Nat × Nat)) (p : Nat × Nat) (hp : p ∈ ps) :
    p.2 ≤ totalRequested ps p.1 := by
  induction ps with
  | nil => cases hp
  | cons q rest ih =>
      rw [totalRequested_cons]
      rcases List.mem_cons.mp hp with h | h
      · subst h
        simp
      · have := ih h
        omega

theorem totalRequested_eq_zero (ps : List (Nat × Nat)) (lid : Nat)
    (h : ∀ p ∈ ps, p.1 ≠ lid) : totalRequested ps lid = 0 := by
  induction ps with
  | nil => rfl
  | cons q rest ih =>
      rw [totalRequested_cons, if_neg (h q (List.mem_cons_self q rest))]
      have := ih (fun p hp => h p (List.mem_cons_of_mem q hp))
      omega

theorem exists_pair_of_pos (ps : List (Nat × Nat)) (lid : Nat)
    (h : 0 < totalRequested ps lid) : ∃ p ∈ ps, p.1 = lid := by
  by_contra hno
  push_neg at hno
  rw [totalRequested_eq_zero ps lid hno] at h
  omega

theorem totalRequested_eq_of_nodup :
    ∀ (ps : List (Nat × Nat)), (ps.map Prod.fst).Nodup →
      ∀ p ∈ ps, totalRequested ps p.1 = p.2 := by
  intro ps
  induction ps with
  | nil => intro _ p hp; cases hp
  | cons q rest ih =>
      intro hnd p hp
      simp only [List.map_cons, List.nodup_cons] at hnd
      obtain ⟨hq1, hrest⟩ := hnd
      rw [totalRequested_cons]
      rcases List.mem_cons.mp hp with h | h
      · subst h
        have hz : ∀ r ∈ rest, r.1 ≠ p.1 :=
          fun r hr he => hq1 (he ▸ List.mem_map_of_mem Prod.fst hr)
        rw [if_pos rfl, totalRequested_eq_zero rest p.1 hz]
        omega
      · have hne : q.1 ≠ p.1 :=
          fun he => hq1 (he ▸ List.mem_map_of_mem Prod.fst h)
        rw [if_neg hne, ih hrest p h]
        omega

theorem findLine_some {lines : List OrderLine} {lid : Nat} {l : OrderLine}
    (h : findLine lines lid = some l) : l ∈ lines ∧ l.id = lid := by
  unfold findLine at h
  refine ⟨List.mem_of_find?_eq_some h, ?_⟩
  have h2 := List.find?_some h
  simpa using h2

theorem findLine_eq_of_mem :
    ∀ (lines : List OrderLine), (lines.map OrderLine.id).Nodup →
      ∀ l ∈ lines, findLine lines l.id = some l := by
  intro lines
  induction lines with
  | nil => intro _ l hl; cases hl
  | cons a rest ih =>
      intro hnd l hl
      simp only [List.map_cons, List.nodup_cons] at hnd
      obtain ⟨ha, hrest⟩ := hnd
      rcases List.mem_cons.mp hl with h | h
      · subst h
        unfold findLine
        rw [List.find?_cons_of_pos _ (by simp)]
      · have hne : a.id ≠ l.id :=
          fun he => ha (he ▸ List.mem_map_of_mem OrderLine.id h)
        unfold findLine
        rw [List.find?_cons_of_neg _ (by simp [hne])]
        exact ih hrest l h

theorem findLine_commitPairs (lines : List OrderLine) (ps : List (Nat × Nat))
    (lid : Nat) :
    findLine (commitPairs lines ps) lid = (findLine lines lid).map
      (fun l => { l with
        quantityFulfilled := l.quantityFulfilled + totalRequested ps lid }) := by
  induction lines with
  | nil => simp [commitPairs, findLine]
  | cons a rest ih =>
      simp only [commitPairs, List.map_cons]
      by_cases h : a.id = lid
      · unfold findLine
        rw [List.find?_cons_of_pos _ (by simp [h]), List.find?_cons_of_pos _ (by simp [h])]
        simp [h]
      · unfold findLine
        rw [List.find?_cons_of_neg _ (by simp [h]), List.find?_cons_of_neg _ (by simp [h])]
        exact ih

theorem commitPairs_map_id (lines : List OrderLine) (ps : List (Nat × Nat)) :
    (commitPairs lines ps).map OrderLine.id = lines.map OrderLine.id := by
  induction lines with
  | nil => rfl
  | cons a rest ih =>
      simp only [commitPairs, List.map_cons] at ih ⊢
      simp [ih]

theorem restorePairs_map_id (lines : List OrderLine) (ps : List (Nat × Nat)) :
    (restorePairs lines ps).map OrderLine.id = lines.map OrderLine.id := by
  induction lines with
  | nil => rfl
  | cons a rest ih =>
      simp only [restorePairs, List.map_cons] at ih ⊢
      simp [ih]

theorem sumCreated_cons (g : Fulfillment) (fs : List Fulfillment) (lid : Nat) :
    sumCreated (g :: fs) lid =
      (if g.status = .CREATED then totalRequested g.pairs lid else 0) +
        sumCreated fs lid := by
  simp [sumCreated]

theorem sumCreated_append (fs : List Fulfillment) (f : Fulfillment) (lid : Nat) :
    sumCreated (fs ++ [f]) lid = sumCreated fs lid +
      (if f.status = .CREATED then totalRequested f.pairs lid else 0) := by
  simp [sumCreated]

theorem cancelById_map_id (fs : List Fulfillment) (fid : Nat) :
    (cancelFulfillmentById fs fid).map Fulfillment.id = fs.map Fulfillment.id := by
  induction fs with
  | nil => rfl
  | cons a rest ih =>
      simp only [cancelFulfillmentById, List.map_cons] at ih ⊢
      by_cases h : a.id = fid <;> simp [h, ih]

theorem cancelById_eq_of_not_mem (fs : List Fulfillment) (fid : Nat)
    (h : ∀ g ∈ fs, g.id ≠ fid) : cancelFulfillmentById fs fid = fs := by
  induction fs with
  | nil => rfl
  | cons a rest ih =>
      simp only [cancelFulfillmentById, List.map_cons]
      rw [if_neg (h a (List.mem_cons_self a rest))]
      have := ih (fun g hg => h g (List.mem_cons_of_mem a hg))
      simp only [cancelFulfillmentById] at this
      rw [this]

theorem sumCreated_cancelById :
    ∀ (fs : List Fulfillment), (fs.map Fulfillment.id).Nodup →
      ∀ f ∈ fs, ∀ (fid lid : Nat), f.id = fid → f.status = .CREATED →
        sumCreated (cancelFulfillmentById fs fid) lid +
            totalRequested f.pairs lid = sumCreated fs lid := by
  intro fs
  induction fs with
  | nil => intro _ f hf; cases hf
  | cons a rest ih =>
      intro hnd f hf fid lid hid hst
      simp only [List.map_cons, List.nodup_cons] at hnd
      obtain ⟨ha, hrest⟩ := hnd
      rcases List.mem_cons.mp hf with h | h
      · subst h
        have hrid : ∀ g ∈ rest, g.id ≠ fid := by
          intro g hg he
          exact ha (by rw [hid, ← he]; exact List.mem_map_of_mem Fulfillment.id hg)
        simp only [cancelFulfillmentById, List.map_cons, if_pos hid]
        have hrw := cancelById_eq_of_not_mem rest fid hrid
        simp only [cancelFulfillmentById] at hrw
        rw [hrw, sumCreated_cons, sumCreated_cons, if_pos hst,
          if_neg (by decide : ¬(FulfillmentStatus.CANCELED = FulfillmentStatus.CREATED))]
        omega
      · have hane : a.id ≠ fid := by
          intro he
          exact ha (by rw [he, ← hid]; exact List.mem_map_of_mem Fulfillment.id h)
        simp only [cancelFulfillmentById, List.map_cons, if_neg hane]
        rw [sumCreated_cons, sumCreated_cons]
        have := ih hrest f h fid lid hid hst
        simp only [cancelFulfillmentById] at this
        omega

theorem offending_nil_iff (lines : List OrderLine) (ps : List (Nat × Nat)) :
    offendingLines lines ps = [] ↔
      ∀ p ∈ ps, pairOffending lines ps p = false := by
  unfold offendingLines
  rw [List.map_eq_nil_iff, List.filter_eq_nil_iff]
  simp

theorem pairOffending_false {lines : List OrderLine} {ps : List (Nat × Nat)}
    {p : Nat × Nat} (h : pairOffending lines ps p = false) :
    p.2 ≠ 0 ∧ ∃ l, findLine lines p.1 = some l ∧
      l.quantityFulfilled + totalRequested ps p.1 ≤ l.quantityOrdered := by
  unfold pairOffending at h
  rw [Bool.or_eq_false_iff] at h
  obtain ⟨h1, h2⟩ := h
  refine ⟨by simpa using h1, ?_⟩
  cases hf : findLine lines p.1 with
  | none => rw [hf] at h2; cases h2
  | some l =>
      rw [hf] at h2
      exact ⟨l, rfl, by simpa [Nat.not_lt] using h2⟩

theorem commit_bound {lines : List OrderLine} {ps : List (Nat × Nat)}
    (hnd : (lines.map OrderLine.id).Nodup)
    (hoff : ∀ p ∈ ps, pairOffending lines ps p = false)
    {l : OrderLine} (hl : l ∈ lines)
    (hb : l.quantityFulfilled ≤ l.quantityOrdered) :
    l.quantityFulfilled + totalRequested ps l.id ≤ l.quantityOrdered := by
  rcases Nat.eq_zero_or_pos (totalRequested ps l.id) with h0 | hpos
  · omega
  · obtain ⟨p, hp, hp1⟩ := exists_pair_of_pos _ _ hpos
    obtain ⟨-, l₀, hfl₀, hle⟩ := pairOffending_false (hoff p hp)
    rw [hp1] at hfl₀ hle
    rw [findLine_eq_of_mem lines hnd l hl] at hfl₀
    obtain rfl : l = l₀ := by
      simpa using hfl₀
    exact hle

end OrderEngine

namespace OrderEngine

theorem createFulfillment_ok_iff (o : Order) (pairs : List (Nat × Nat))
    (tracking : Option Nat) (o2 : Order) :
    createFulfillment o pairs tracking = .ok o2 ↔
      (o.status = .Unfulfilled ∨ o.status = .PartiallyFulfilled) ∧
      pairs.all (fun p => (findLine o.lines p.1).isSome) = true ∧
      offendingLines o.lines pairs = [] ∧
      o2 = { o with
        lines := commitPairs o.lines pairs,
        status := fulfillmentStatus (commitPairs o.lines pairs),
        fulfillments := o.fulfillments ++
          [⟨o.fulfillments.length, pairs, tracking, .CREATED⟩],
        events := o.events ++ [⟨o.events.length, .FULFILLED, 0⟩] } := by
  rcases hs : o.status <;> simp only [createFulfillment, hs] <;>
    try (constructor
         · intro h; exact absurd h (by simp)
         · rintro ⟨(h | h), -⟩ <;> cases h)
  all_goals
    by_cases hall : pairs.all (fun p => (findLine o.lines p.1).isSome) = true
  all_goals
    try (rw [if_neg hall]
         constructor
         · intro h; exact absurd h (by simp)
         · rintro ⟨-, h, -⟩; exact absurd h hall)
  all_goals rw [if_pos hall]
  all_goals rcases hoff : offendingLines o.lines pairs with - | ⟨b, bs⟩
  all_goals simp [hall, hoff, eq_comm]

theorem cancelFulfillment_ok_iff (o : Order) (fid : Nat) (o2 : Order) :
    cancelFulfillment o fid = .ok o2 ↔
      (o.status = .Unfulfilled ∨ o.status = .PartiallyFulfilled ∨
         o.status = .Fulfilled) ∧
      ∃ f, o.fulfillments.find? (fun g => g.id = fid) = some f ∧
        f.status ≠ .CANCELED ∧
        o2 = { o with
          lines := restorePairs o.lines f.pairs,
          status := fulfillmentStatus (restorePairs o.lines f.pairs),
          fulfillments := cancelFulfillmentById o.fulfillments fid,
          events := o.events ++ [⟨o.events.length, .CANCELED, 1⟩] } := by
  rcases hs : o.status
  case Draft =>
    simp only [cancelFulfillment, hs]
    constructor
    · intro h; exact absurd h (by simp)
    · rintro ⟨(h | h | h), -⟩ <;> cases h
  case Canceled =>
    simp only [cancelFulfillment, hs]
    constructor
    · intro h; exact absurd h (by simp)
    · rintro ⟨(h | h | h), -⟩ <;> cases h
  all_goals simp only [cancelFulfillment, hs]
  all_goals rcases hf : o.fulfillments.find? (fun g => g.id = fid) with - | f
  all_goals simp only [hf]
  all_goals
    first
    | (constructor
       · intro h; exact absurd h (by simp)
       · rintro ⟨-, g, hg, -⟩; cases hg)
    | (by_cases hcanc : f.status = FulfillmentStatus.CANCELED
       · rw [if_pos hcanc]
         constructor
         · intro h; exact absurd h (by simp)
         · rintro ⟨-, g, hg, hgc, -⟩
           obtain rfl : f = g := by simpa using hg
           exact absurd hcanc hgc
       · rw [if_neg hcanc]
         constructor
         · intro h
           refine ⟨by simp, f, rfl, hcanc, ?_⟩
           injection h with h2
           exact h2.symm
         · rintro ⟨-, g, hg, -, ho2⟩
           obtain rfl : f = g := by simpa using hg
           rw [ho2])

end OrderEngine

namespace OrderEngine

theorem trackMap_map_id (fs : List Fulfillment) (fid t : Nat) :
    ((fs.map (fun f => if f.id = fid then { f with tracking := some t } else f)).map
        Fulfillment.id) = fs.map Fulfillment.id := by
  induction fs with
  | nil => rfl
  | cons a rest ih =>
      simp only [List.map_cons] at ih ⊢
      by_cases h : a.id = fid <;> simp [h, ih]

theorem sumCreated_trackMap (fs : List Fulfillment) (fid t lid : Nat) :
    sumCreated (fs.map (fun f => if f.id = fid then { f with tracking := some t } else f))
        lid = sumCreated fs lid := by
  induction fs with
  | nil => rfl
  | cons a rest ih =>
      simp only [List.map_cons, sumCreated_cons] at ih ⊢
      by_cases h : a.id = fid <;> simp [h, ih]

theorem lineInv_init (o : Order) (h : InitOrder o) : LineInv o := by
  obtain ⟨-, hful, hzero, hnd, -⟩ := h
  refine ⟨hnd, ?_, ?_, ?_⟩
  · simp [hful]
  · simp [hful]
  · intro l hl
    simp [hful, sumCreated, hzero l hl]

theorem lineInv_preserved (op : EngineOp) (o o2 : Order)
    (hInv : LineInv o) (h : applyOp op o = .ok o2) : LineInv o2 := by
  cases op with
  | capture amount =>
      simp only [applyOp] at h
      unfold capture at h
      repeat' split at h
      all_goals try exact Except.noConfusion h
      all_goals simp only [Except.ok.injEq] at h
      all_goals subst h
      all_goals exact hInv
  | refund amount =>
      simp only [applyOp] at h
      unfold refund at h
      repeat' split at h
      all_goals try exact Except.noConfusion h
      all_goals simp only [Except.ok.injEq] at h
      all_goals subst h
      all_goals exact hInv
  | void =>
      simp only [applyOp] at h
      unfold void at h
      repeat' split at h
      all_goals try exact Except.noConfusion h
      all_goals simp only [Except.ok.injEq] at h
      all_goals subst h
      all_goals exact hInv
  | markAsPaid =>
      simp only [applyOp] at h
      unfold markAsPaid at h
      repeat' split at h
      all_goals try exact Except.noConfusion h
      all_goals simp only [Except.ok.injEq] at h
      all_goals subst h
      all_goals exact hInv
  | cancel =>
      simp only [applyOp] at h
      unfold cancel cancelCommit at h
      repeat' split at h
      all_goals try exact Except.noConfusion h
      all_goals simp only [Except.ok.injEq] at h
      all_goals subst h
      all_goals exact hInv
  | completeDraft =>
      simp only [applyOp] at h
      unfold completeDraft at h
      repeat' split at h
      all_goals try exact Except.noConfusion h
      all_goals simp only [Except.ok.injEq] at h
      all_goals subst h
      all_goals exact hInv
  | addNote note =>
      simp only [applyOp] at h
      unfold addNote at h
      simp only [Except.ok.injEq] at h
      subst h
      exact hInv
  | updateTracking fid t =>
      simp only [applyOp] at h
      unfold updateFulfillmentTracking at h
      split at h
      case isFalse => exact Except.noConfusion h
      case isTrue =>
        simp only [Except.ok.injEq] at h
        subst h
        obtain ⟨hndl, hndf, hflen, hline⟩ := hInv
        refine ⟨hndl, ?_, ?_, ?_⟩
        · show ((o.fulfillments.map _).map Fulfillment.id).Nodup
          rw [trackMap_map_id]
          exact hndf
        · intro f2 hf2
          show f2.id < (o.fulfillments.map _).length
          simp only [List.length_map]
          obtain ⟨g, hg, rfl⟩ := List.mem_map.mp hf2
          by_cases hgid : g.id = fid
          · rw [if_pos hgid]
            show g.id < o.fulfillments.length
            exact hflen g hg
          · rw [if_neg hgid]
            exact hflen g hg
        · intro l hl
          rw [sumCreated_trackMap]
          exact hline l hl
  | createFulfillment pairs tracking =>
      simp only [applyOp] at h
      rw [createFulfillment_ok_iff] at h
      obtain ⟨hstat, hall, hoff, rfl⟩ := h
      obtain ⟨hndl, hndf, hflen, hline⟩ := hInv
      have hoffall := (offending_nil_iff o.lines pairs).mp hoff
      refine ⟨?_, ?_, ?_, ?_⟩
      · show ((commitPairs o.lines pairs).map OrderLine.id).Nodup
        rw [commitPairs_map_id]
        exact hndl
      · show ((o.fulfillments ++ [_]).map Fulfillment.id).Nodup
        rw [List.map_append, List.nodup_append]
        refine ⟨hndf, List.nodup_singleton _, ?_⟩
        intro a ha hb
        obtain ⟨g, hg, rfl⟩ := List.mem_map.mp ha
        have := hflen g hg
        simp only [List.map_cons, List.map_nil, List.mem_cons, List.not_mem_nil,
          or_false] at hb
        omega
      · intro f2 hf2
        simp only [List.length_append, List.length_cons, List.length_nil]
        rcases List.mem_append.mp hf2 with hf2 | hf2
        · have := hflen f2 hf2
          omega
        · simp only [List.mem_cons, List.not_mem_nil, or_false] at hf2
          subst hf2
          simp
      · intro l2 hl2
        obtain ⟨l, hl, rfl⟩ := List.mem_map.mp hl2
        obtain ⟨hb, hc⟩ := hline l hl
        constructor
        · exact commit_bound hndl hoffall hl hb
        · show l.quantityFulfilled + totalRequested pairs l.id =
            sumCreated (o.fulfillments ++
              [⟨o.fulfillments.length, pairs, tracking, .CREATED⟩]) l.id
          have hrw : sumCreated (o.fulfillments ++
              [⟨o.fulfillments.length, pairs, tracking, .CREATED⟩]) l.id =
              sumCreated o.fulfillments l.id + totalRequested pairs l.id := by
            simp [sumCreated_append]
          omega
  | cancelFulfillment fid =>
      simp only [applyOp] at h
      rw [cancelFulfillment_ok_iff] at h
      obtain ⟨hstat, f, hfind, hfc, rfl⟩ := h
      obtain ⟨hndl, hndf, hflen, hline⟩ := hInv
      have hfmem : f ∈ o.fulfillments := List.mem_of_find?_eq_some hfind
      have hfid : f.id = fid := by simpa using List.find?_some hfind
      have hfc2 : f.status = .CREATED := by
        cases hfs : f.status
        · rfl
        · exact absurd hfs hfc
      have hsum := sumCreated_cancelById o.fulfillments hndf f hfmem fid
      refine ⟨?_, ?_, ?_, ?_⟩
      · show ((restorePairs o.lines f.pairs).map OrderLine.id).Nodup
        rw [restorePairs_map_id]
        exact hndl
      · show ((cancelFulfillmentById o.fulfillments fid).map Fulfillment.id).Nodup
        rw [cancelById_map_id]
        exact hndf
      · intro f2 hf2
        show f2.id < (cancelFulfillmentById o.fulfillments fid).length
        unfold cancelFulfillmentById
        simp only [List.length_map]
        obtain ⟨g, hg, rfl⟩ := List.mem_map.mp hf2
        by_cases hgid : g.id = fid
        · rw [if_pos hgid]
          exact hflen g hg
        · rw [if_neg hgid]
          exact hflen g hg
      · intro l2 hl2
        obtain ⟨l, hl, rfl⟩ := List.mem_map.mp hl2
        obtain ⟨hb, hc⟩ := hline l hl
        have hs := hsum l.id hfid hfc2
        constructor
        · show l.quantityFulfilled - totalRequested f.pairs l.id ≤ l.quantityOrdered
          omega
        · show l.quantityFulfilled - totalRequested f.pairs l.id =
            sumCreated (cancelFulfillmentById o.fulfillments fid) l.id
          omega

/-- C5: in every reachable state, every line's fulfilled quantity is at
most its ordered quantity; equivalently it equals the sum of quantities
over all non-canceled fulfillments for that line, and that sum never
exceeds the ordered quantity. -/
theorem fulfilled_le_ordered_reachable :
    ∀ o, Reachable o → ∀ l ∈ o.lines,
      l.quantityFulfilled ≤ l.quantityOrdered ∧
      l.quantityFulfilled = sumCreated o.fulfillments l.id ∧
      sumCreated o.fulfillments l.id ≤ l.quantityOrdered := by
  have main : ∀ o, Reachable o → LineInv o := by
    intro o h
    induction h with
    | init o h0 => exact lineInv_init o h0
    | step o op o2 _ hstep ih => exact lineInv_preserved op o o2 ih hstep
  intro o h l hl
  obtain ⟨-, -, -, hline⟩ := main o h
  obtain ⟨hb, hc⟩ := hline l hl
  exact ⟨hb, hc, hc ▸ hb⟩

theorem fulfilled_le_ordered_witness :
    lineA.quantityFulfilled ≤ lineA.quantityOrdered ∧
    lineA.quantityFulfilled = sumCreated baseOrder.fulfillments lineA.id ∧
    sumCreated baseOrder.fulfillments lineA.id ≤ lineA.quantityOrdered :=
  fulfilled_le_ordered_reachable baseOrder
    (Reachable.init baseOrder (by decide)) lineA (by decide)

end OrderEngine

namespace OrderEngine

/-- C4: `create_fulfillment` is all-or-nothing — a request containing
any pair that violates `qty > 0` or
`already_fulfilled(line) + qty ≤ line.quantity_ordered` fails with
`OverfulfillmentError` and leaves every line untouched, while a
successful request bumps every listed line by its quantity. -/
theorem createFulfillment_atomic (o : Order) (pairs : List (Nat × Nat))
    (tracking : Option Nat)
    (hst : o.status = .Unfulfilled ∨ o.status = .PartiallyFulfilled)
    (hfound : ∀ p ∈ pairs, (findLine o.lines p.1).isSome = true)
    (hndp : (pairs.map Prod.fst).Nodup) :
    FulfillmentAtomicClaim o pairs tracking := by
  constructor
  · rintro ⟨p, hp, hviol⟩
    have hall : pairs.all (fun p => (findLine o.lines p.1).isSome) = true :=
      List.all_eq_true.mpr (fun x hx => hfound x hx)
    have hoffp : pairOffending o.lines pairs p = true := by
      unfold pairOffending
      rcases hviol with hq | ⟨l, hfl, hlt⟩
      · simp [hq]
      · have htr : p.2 ≤ totalRequested pairs p.1 := le_totalRequested pairs p hp
        rw [Bool.or_eq_true]
        right
        rw [hfl]
        simp only [decide_eq_true_eq]
        omega
    have hne : offendingLines o.lines pairs ≠ [] := by
      intro h0
      have hc := (offending_nil_iff o.lines pairs).mp h0 p hp
      rw [hoffp] at hc
      cases hc
    obtain ⟨b, bs, hbb⟩ := List.exists_cons_of_ne_nil hne
    have herr : createFulfillment o pairs tracking =
        .error (.OverfulfillmentError (b :: bs)) := by
      rcases hst with h | h <;> simp [createFulfillment, h, hall, hbb]
    exact ⟨⟨b :: bs, herr⟩, by simp [runOp, applyOp, herr]⟩
  · intro o2 h2 p hp l hfl
    rw [createFulfillment_ok_iff] at h2
    obtain ⟨-, -, -, rfl⟩ := h2
    show findLine (commitPairs o.lines pairs) p.1 = _
    rw [findLine_commitPairs, hfl]
    simp [totalRequested_eq_of_nodup pairs hndp p hp]

theorem createFulfillment_atomic_witness :
    FulfillmentAtomicClaim baseOrder [(1, 2), (2, 5)] none :=
  createFulfillment_atomic baseOrder [(1, 2), (2, 5)] none (by decide)
    (by decide) (by decide)

end OrderEngine

namespace OrderEngine

theorem bulkCancel_fst (st : List Order) (ids : List Nat) :
    ((bulkCancel st ids).2).map Prod.fst = ids := by
  induction ids generalizing st with
  | nil => simp [bulkCancel]
  | cons i rest ih =>
      rcases hl : lookupOrder st i with - | o
      · simp [bulkCancel, hl, ih]
      · rcases ha : cancel o with e | o2 <;> simp [bulkCancel, hl, ha, ih]

/-- C6: `bulkCancel` reports one result per requested order id, and on
`[A, B, C]` with B fulfilled and A, C cancelable it cancels A and C,
reports `AlreadyFulfilledError` for B, and leaves B untouched — one
order's failure does not affect the others. -/
theorem bulkCancel_independent (A B C : Order)
    (hab : A.id ≠ B.id) (hac : A.id ≠ C.id) (hbc : B.id ≠ C.id)
    (hA : A.status = .Draft ∨ A.status = .Unfulfilled ∨
       A.status = .PartiallyFulfilled)
    (hB : B.status = .Fulfilled)
    (hC : C.status = .Draft ∨ C.status = .Unfulfilled ∨
       C.status = .PartiallyFulfilled) :
    (∀ st ids, ((bulkCancel st ids).2).map Prod.fst = ids) ∧
      BulkCancelTriple A B C := by
  refine ⟨bulkCancel_fst, ?_⟩
  have hAok : cancel A = .ok (cancelCommit A) := by
    rcases hA with h | h | h <;> simp [cancel, h]
  have hCok : cancel C = .ok (cancelCommit C) := by
    rcases hC with h | h | h <;> simp [cancel, h]
  have hBerr : cancel B = .error .AlreadyFulfilledError := by
    simp [cancel, hB]
  have hba : B.id ≠ A.id := fun he => hab he.symm
  have hca : C.id ≠ A.id := fun he => hac he.symm
  have hcb : C.id ≠ B.id := fun he => hbc he.symm
  have l1 : lookupOrder [A, B, C] A.id = some A := by
    unfold lookupOrder
    rw [List.find?_cons_of_pos _ (by simp)]
  have st1 : storeUpdate [A, B, C] (cancelCommit A) = [cancelCommit A, B, C] := by
    unfold storeUpdate
    simp [cancelCommit, hba, hca]
  have l2 : lookupOrder [cancelCommit A, B, C] B.id = some B := by
    unfold lookupOrder
    rw [List.find?_cons_of_neg _ (by simp [cancelCommit, hab]),
      List.find?_cons_of_pos _ (by simp)]
  have l3 : lookupOrder [cancelCommit A, B, C] C.id = some C := by
    unfold lookupOrder
    rw [List.find?_cons_of_neg _ (by simp [cancelCommit, hac]),
      List.find?_cons_of_neg _ (by simp [hbc]),
      List.find?_cons_of_pos _ (by simp)]
  have st2 : storeUpdate [cancelCommit A, B, C] (cancelCommit C) =
      [cancelCommit A, B, cancelCommit C] := by
    unfold storeUpdate
    simp [cancelCommit, hac, hbc]
  refine ⟨cancelCommit A, cancelCommit C, ?_, rfl, rfl, rfl, rfl⟩
  simp [bulkCancel, l1, hAok, st1, l2, hBerr, l3, hCok, st2]

theorem bulkCancel_independent_witness :
    BulkCancelTriple baseOrder fulfilledOrder draftOrder :=
  (bulkCancel_independent baseOrder fulfilledOrder draftOrder (by decide)
    (by decide) (by decide) (by decide) (by decide) (by decide)).2

end OrderEngine

namespace OrderEngine

theorem remainingPairs_subset_ids (lines : List OrderLine) :
    ∀ p ∈ remainingPairs lines, p.1 ∈ lines.map OrderLine.id := by
  intro p hp
  unfold remainingPairs at hp
  obtain ⟨l, hl, rfl⟩ := List.mem_map.mp hp
  exact List.mem_map_of_mem OrderLine.id (List.mem_of_mem_filter hl)

theorem remainingPairs_mem {lines : List OrderLine} {p : Nat × Nat}
    (hp : p ∈ remainingPairs lines) :
    ∃ l ∈ lines, l.quantityFulfilled < l.quantityOrdered ∧
      p = (l.id, l.quantityOrdered - l.quantityFulfilled) := by
  unfold remainingPairs at hp
  obtain ⟨l, hl, rfl⟩ := List.mem_map.mp hp
  have h2 := List.mem_filter.mp hl
  exact ⟨l, h2.1, by simpa using h2.2, rfl⟩

theorem totalRequested_remainingPairs :
    ∀ (lines : List OrderLine), (lines.map OrderLine.id).Nodup →
      ∀ l ∈ lines, totalRequested (remainingPairs lines) l.id =
        l.quantityOrdered - l.quantityFulfilled := by
  intro lines
  induction lines with
  | nil => intro _ l hl; cases hl
  | cons a rest ih =>
      intro hnd l hl
      simp only [List.map_cons, List.nodup_cons] at hnd
      obtain ⟨ha, hrest⟩ := hnd
      rcases List.mem_cons.mp hl with h | h
      · subst h
        have hzero : totalRequested (remainingPairs rest) l.id = 0 := by
          apply totalRequested_eq_zero
          intro p hp he
          exact ha (he ▸ remainingPairs_subset_ids rest p hp)
        unfold remainingPairs
        rw [List.filter_cons]
        by_cases hq : l.quantityFulfilled < l.quantityOrdered
        · rw [if_pos (by simpa using hq)]
          rw [List.map_cons, totalRequested_cons]
          show (if l.id = l.id then l.quantityOrdered - l.quantityFulfilled
            else 0) + totalRequested (remainingPairs rest) l.id = _
          rw [if_pos rfl, hzero]
          omega
        · rw [if_neg (by simpa using hq)]
          show totalRequested (remainingPairs rest) l.id = _
          rw [hzero]
          omega
      · have hne2 : a.id ≠ l.id :=
          fun he => ha (he ▸ List.mem_map_of_mem OrderLine.id h)
        have hih := ih hrest l h
        unfold remainingPairs
        unfold remainingPairs at hih
        rw [List.filter_cons]
        by_cases hq : a.quantityFulfilled < a.quantityOrdered
        · rw [if_pos (by simpa using hq)]
          rw [List.map_cons, totalRequested_cons]
          show (if a.id = l.id then a.quantityOrdered - a.quantityFulfilled
            else 0) + _ = _
          rw [if_neg hne2]
          omega
        · rw [if_neg (by simpa using hq)]
          exact hih

theorem find?_append_new (fs : List Fulfillment) (g : Fulfillment)
    (h : ∀ f ∈ fs, f.id ≠ g.id) :
    (fs ++ [g]).find? (fun x => x.id = g.id) = some g := by
  induction fs with
  | nil =>
      rw [List.nil_append, List.find?_cons_of_pos _ (by simp)]
  | cons a rest ih =>
      rw [List.cons_append,
        List.find?_cons_of_neg _ (by simp [h a (List.mem_cons_self a rest)])]
      exact ih (fun f hf => h f (List.mem_cons_of_mem a hf))

theorem restore_commit (lines : List OrderLine) (ps : List (Nat × Nat)) :
    restorePairs (commitPairs lines ps) ps = lines := by
  unfold restorePairs commitPairs
  rw [List.map_map]
  conv_rhs => rw [← List.map_id lines]
  apply List.map_congr_left
  intro l hl
  cases l
  simp

/-- C7: fulfilling the full remaining quantity of every line moves the
order to FULFILLED, and canceling that same fulfillment restores the
lines and yields PARTIALLY_FULFILLED when some other fulfilled quantity
remains and UNFULFILLED when none does. -/
theorem fulfillment_round_trip (o : Order)
    (hnd : (o.lines.map OrderLine.id).Nodup)
    (hst : o.status = .Unfulfilled ∨ o.status = .PartiallyFulfilled)
    (hb : ∀ l ∈ o.lines, l.quantityFulfilled ≤ l.quantityOrdered)
    (hne : ∃ l ∈ o.lines, l.quantityFulfilled < l.quantityOrdered)
    (hfi : ∀ f ∈ o.fulfillments, f.id < o.fulfillments.length) :
    RoundTripClaim o := by
  unfold RoundTripClaim
  have hall : (remainingPairs o.lines).all
      (fun p => (findLine o.lines p.1).isSome) = true := by
    rw [List.all_eq_true]
    intro p hp
    obtain ⟨l, hl, -, rfl⟩ := remainingPairs_mem hp
    have hfl := findLine_eq_of_mem o.lines hnd l hl
    show (findLine o.lines l.id).isSome = true
    rw [hfl]
    rfl
  have hoff : offendingLines o.lines (remainingPairs o.lines) = [] := by
    rw [offending_nil_iff]
    intro p hp
    obtain ⟨l, hl, hlt, rfl⟩ := remainingPairs_mem hp
    unfold pairOffending
    rw [Bool.or_eq_false_iff]
    constructor
    · show decide (l.quantityOrdered - l.quantityFulfilled = 0) = false
      simp only [decide_eq_false_iff_not]
      omega
    · show (match findLine o.lines l.id with
        | none => true
        | some l₀ => decide (l₀.quantityOrdered < l₀.quantityFulfilled +
            totalRequested (remainingPairs o.lines) l.id)) = false
      rw [findLine_eq_of_mem o.lines hnd l hl]
      show decide (l.quantityOrdered < l.quantityFulfilled +
        totalRequested (remainingPairs o.lines) l.id) = false
      rw [totalRequested_remainingPairs o.lines hnd l hl]
      simp only [decide_eq_false_iff_not]
      omega
  have h1 : createFulfillment o (remainingPairs o.lines) none = .ok
      { o with
        lines := commitPairs o.lines (remainingPairs o.lines),
        status := fulfillmentStatus (commitPairs o.lines (remainingPairs o.lines)),
        fulfillments := o.fulfillments ++
          [(⟨o.fulfillments.length, remainingPairs o.lines, none, .CREATED⟩ : Fulfillment)],
        events := o.events ++ [⟨o.events.length, .FULFILLED, 0⟩] } :=
    (createFulfillment_ok_iff o (remainingPairs o.lines) none _).mpr
      ⟨hst, hall, hoff, rfl⟩
  have hfull : ∀ l2 ∈ commitPairs o.lines (remainingPairs o.lines),
      l2.quantityFulfilled = l2.quantityOrdered := by
    intro l2 hl2
    obtain ⟨l, hl, rfl⟩ := List.mem_map.mp hl2
    show l.quantityFulfilled + totalRequested (remainingPairs o.lines) l.id =
      l.quantityOrdered
    rw [totalRequested_remainingPairs o.lines hnd l hl]
    have := hb l hl
    omega
  have hstatus1 :
      fulfillmentStatus (commitPairs o.lines (remainingPairs o.lines)) =
        .Fulfilled := by
    unfold fulfillmentStatus
    rw [if_pos]
    rw [List.all_eq_true]
    intro x hx
    simpa using hfull x hx
  have hfind : (o.fulfillments ++
      [(⟨o.fulfillments.length, remainingPairs o.lines, none, .CREATED⟩ : Fulfillment)]).find?
        (fun g => g.id = o.fulfillments.length) = some
        (⟨o.fulfillments.length, remainingPairs o.lines, none, .CREATED⟩ :
          Fulfillment) := by
    exact find?_append_new o.fulfillments
      ⟨o.fulfillments.length, remainingPairs o.lines, none, .CREATED⟩
      (fun f hf => by
        have := hfi f hf
        show f.id ≠ o.fulfillments.length
        omega)
  have hrestore : restorePairs (commitPairs o.lines (remainingPairs o.lines))
      (remainingPairs o.lines) = o.lines := restore_commit _ _
  have hnotfull : ¬(o.lines.all
      (fun l => l.quantityFulfilled = l.quantityOrdered) = true) := by
    obtain ⟨l0, hl0, hlt0⟩ := hne
    intro hallfull
    have := List.all_eq_true.mp hallfull l0 hl0
    simp only [decide_eq_true_eq] at this
    omega
  have h2 : cancelFulfillment
      { o with
        lines := commitPairs o.lines (remainingPairs o.lines),
        status := fulfillmentStatus (commitPairs o.lines (remainingPairs o.lines)),
        fulfillments := o.fulfillments ++
          [(⟨o.fulfillments.length, remainingPairs o.lines, none, .CREATED⟩ : Fulfillment)],
        events := o.events ++ [⟨o.events.length, .FULFILLED, 0⟩] }
      o.fulfillments.length = .ok
      { o with
        lines := restorePairs (commitPairs o.lines (remainingPairs o.lines))
          (remainingPairs o.lines),
        status := fulfillmentStatus
          (restorePairs (commitPairs o.lines (remainingPairs o.lines))
            (remainingPairs o.lines)),
        fulfillments := cancelFulfillmentById
          (o.fulfillments ++
            [(⟨o.fulfillments.length, remainingPairs o.lines, none, .CREATED⟩ : Fulfillment)])
          o.fulfillments.length,
        events := (o.events ++ [(⟨o.events.length, .FULFILLED, 0⟩ : OrderEvent)]) ++
          [(⟨(o.events ++ [(⟨o.events.length, .FULFILLED, 0⟩ : OrderEvent)]).length,
            .CANCELED, 1⟩ : OrderEvent)] } :=
    (cancelFulfillment_ok_iff _ _ _).mpr
      ⟨Or.inr (Or.inr hstatus1),
        (⟨o.fulfillments.length, remainingPairs o.lines, none, .CREATED⟩ :
          Fulfillment),
        hfind,
        (by decide : FulfillmentStatus.CREATED ≠ FulfillmentStatus.CANCELED),
        rfl⟩
  refine ⟨_, _, h1, hstatus1, h2, ?_, ?_⟩
  · show fulfillmentStatus
      (restorePairs (commitPairs o.lines (remainingPairs o.lines))
        (remainingPairs o.lines)) = _
    rw [hrestore]
    unfold fulfillmentStatus
    rw [if_neg hnotfull]
  · exact hrestore

theorem fulfillment_round_trip_witness : RoundTripClaim partialOrder :=
  fulfillment_round_trip partialOrder (by decide) (by decide) (by decide)
    (by decide) (by decide)

end OrderEngine
